import Mathlib

/-!
# Verification of `reader`: a read-only, seekable cursor over an immutable buffer

Shallow embedding of `reader.go` (package `reader`, a generic port of Go's
`bytes.Reader` / `strings.Reader`).  The backing storage `S ~[]byte | ~string`
is modelled as a list of bytes (`List Nat`, each element `< 256` in practice);
a string and its byte-equivalent slice are the same list, which realises the
spec's requirement of identical observable behaviour for equivalent content.

Go's `int64` offsets are modelled as `Int`.  The one place where 64-bit
two's-complement wrap-around is reachable from exported API calls is the
addition in `Seek` (`offset += r.off` / `offset += int64(len(r.s))`), so the
embedding applies an explicit `wrap64` there; every other offset arithmetic in
the source is guarded so that it stays far inside the `int64` range.

Destination buffers `p []byte` are modelled by their length `pLen : Nat`; a
read operation returns the list of bytes it copied into the buffer (the result
of Go's `copy`), whose length is Go's returned count `n`.
-/

namespace ReaderSpec

/-- The explicit status values of the package (Go `error` values).
`eof` is `io.EOF`; `shortWrite` is `io.ErrShortWrite`; the remaining
constructors are the `errors.New` failures of `reader.go`.  A sink
(`io.Writer`) may also fail with any of these; `sinkFailure k` stands for an
arbitrary distinct failure value raised by an external sink. -/
inductive Err where
  | eof
  | negativeOffset
  | atBeginning
  | prevNotReadRune
  | invalidWhence
  | negativePosition
  | shortWrite
  | sinkFailure (k : Nat)
deriving DecidableEq, Repr

/-- The cursor state: Go `type Reader[S ~[]byte | ~string] struct`.
`s` is the backing buffer, `off` the read position (`read at s[off]`),
`lastRead` the last read operation (`readOp`, an `int8`:
`-1` = `opRead`, `0` = `opInvalid`, `1..4` = `opReadRune1..4`). -/
structure Reader where
  s : List Nat
  off : Int
  lastRead : Int
deriving DecidableEq, Repr

/-- `opRead readOp = -1`: any other read operation. -/
def opRead : Int := -1

/-- `opInvalid readOp = 0`: non-read operation. -/
def opInvalid : Int := 0

/-- Go `io.SeekStart`. -/
def SeekStart : Int := 0

/-- Go `io.SeekCurrent`. -/
def SeekCurrent : Int := 1

/-- Go `io.SeekEnd`. -/
def SeekEnd : Int := 2

/-- Two's-complement wrap-around of signed 64-bit addition results, as
performed by Go `int64` arithmetic. -/
def wrap64 (n : Int) : Int := (n + 2 ^ 63) % 2 ^ 64 - 2 ^ 63

/-- `utf8.RuneError` = U+FFFD. -/
def RuneError : Nat := 0xFFFD

/-- Lower bound accepted for the second byte of a multi-byte UTF-8 sequence
starting with `p0` (`utf8.acceptRanges`, selected by `utf8.first[p0]`). -/
def acceptLo (p0 : Nat) : Nat :=
  if p0 = 0xE0 then 0xA0 else if p0 = 0xF0 then 0x90 else 0x80

/-- Upper bound accepted for the second byte of a multi-byte UTF-8 sequence
starting with `p0` (`utf8.acceptRanges`, selected by `utf8.first[p0]`). -/
def acceptHi (p0 : Nat) : Nat :=
  if p0 = 0xED then 0x9F else if p0 = 0xF4 then 0x8F else 0xBF

/-- `utf8.DecodeRune p`: standards-compliant UTF-8 decode with replacement.
Returns the decoded code point and the number of bytes consumed; on malformed
or truncated input returns `(RuneError, 1)`, and `(RuneError, 0)` on empty
input.  Valid 2/3/4-byte sequences combine `p0 & mask2/3/4` with the `& maskx`
continuation payloads exactly as the Go source does. -/
def decodeRune (p : List Nat) : Nat × Nat :=
  match p with
  | [] => (RuneError, 0)
  | p0 :: rest =>
    if p0 < 0x80 then (p0, 1)
    else if p0 < 0xC2 ∨ 0xF4 < p0 then (RuneError, 1)
    else
      match rest with
      | [] => (RuneError, 1)
      | b1 :: rest1 =>
        if b1 < acceptLo p0 ∨ acceptHi p0 < b1 then (RuneError, 1)
        else if p0 < 0xE0 then (p0 % 0x20 * 0x40 + b1 % 0x40, 2)
        else
          match rest1 with
          | [] => (RuneError, 1)
          | b2 :: rest2 =>
            if b2 < 0x80 ∨ 0xBF < b2 then (RuneError, 1)
            else if p0 < 0xF0 then
              (p0 % 0x10 * 0x1000 + b1 % 0x40 * 0x40 + b2 % 0x40, 3)
            else
              match rest2 with
              | [] => (RuneError, 1)
              | b3 :: _ =>
                if b3 < 0x80 ∨ 0xBF < b3 then (RuneError, 1)
                else
                  (p0 % 8 * 0x40000 + b1 % 0x40 * 0x1000 +
                    b2 % 0x40 * 0x40 + b3 % 0x40, 4)

namespace Reader

/-- `Len`: the number of bytes of the unread portion. -/
def Len (r : Reader) : Int :=
  if (r.s.length : Int) ≤ r.off then 0 else (r.s.length : Int) - r.off

/-- `Size`: the original length of the underlying byte slice or string. -/
def Size (r : Reader) : Int := (r.s.length : Int)

/-- `Read(p)`: io.Reader.  `pLen` is `len(p)`; the first component of the
result is the list of bytes `copy` wrote into `p` (its length is `n`). -/
def Read (r : Reader) (pLen : Nat) : (List Nat × Option Err) × Reader :=
  if (r.s.length : Int) ≤ r.off then (([], some .eof), r)
  else
    let data := (r.s.drop r.off.toNat).take pLen
    let n := data.length
    ((data, none),
      { r with off := r.off + (n : Int),
               lastRead := if 0 < n then opRead else opInvalid })

/-- `ReadAt(p, off)`: io.ReaderAt.  Cannot modify state, so the cursor is
returned unchanged on every path. -/
def ReadAt (r : Reader) (pLen : Nat) (off : Int) :
    (List Nat × Option Err) × Reader :=
  if off < 0 then (([], some .negativeOffset), r)
  else if (r.s.length : Int) ≤ off then (([], some .eof), r)
  else
    let data := (r.s.drop off.toNat).take pLen
    ((data, if data.length < pLen then some .eof else none), r)

/-- `ReadByte`: io.ByteReader. -/
def ReadByte (r : Reader) : (Nat × Option Err) × Reader :=
  let r := { r with lastRead := opInvalid }
  if (r.s.length : Int) ≤ r.off then ((0, some .eof), r)
  else
    ((r.s.getD r.off.toNat 0, none),
      { r with off := r.off + 1, lastRead := opRead })

/-- `UnreadByte`: io.ByteScanner. -/
def UnreadByte (r : Reader) : Option Err × Reader :=
  if r.off ≤ 0 then (some .atBeginning, r)
  else (none, { r with off := r.off - 1, lastRead := opInvalid })

/-- `ReadRune`: io.RuneReader.  Result is `(ch, size, err)` plus the new
state; the ASCII fast path consumes one byte, otherwise `utf8.DecodeRune`
runs on `s[off:]` and `lastRead` records the decoded width. -/
def ReadRune (r : Reader) : (Nat × Nat × Option Err) × Reader :=
  if (r.s.length : Int) ≤ r.off then
    ((0, 0, some .eof), { r with lastRead := opInvalid })
  else
    let c := r.s.getD r.off.toNat 0
    if c < 0x80 then
      ((c, 1, none), { r with off := r.off + 1, lastRead := 1 })
    else
      let d := decodeRune (r.s.drop r.off.toNat)
      ((d.1, d.2, none),
        { r with off := r.off + (d.2 : Int), lastRead := (d.2 : Int) })

/-- `UnreadRune`: io.RuneScanner.  The `switch` accepts exactly
`opReadRune1..opReadRune4`, i.e. `1 ≤ lastRead ≤ 4`. -/
def UnreadRune (r : Reader) : Option Err × Reader :=
  if 1 ≤ r.lastRead ∧ r.lastRead ≤ 4 then
    (none, { r with off := r.off - r.lastRead, lastRead := opInvalid })
  else (some .prevNotReadRune, r)

/-- `Seek(offset, whence)`: io.Seeker.  `lastRead` is reset before the
`switch`, so even a failed seek clears it; the `Current` and `End` additions
are Go `int64` additions and therefore wrap. -/
def Seek (r : Reader) (offset : Int) (whence : Int) : (Int × Option Err) × Reader :=
  let r := { r with lastRead := opInvalid }
  if whence = SeekStart then
    if offset < 0 then ((0, some .negativePosition), r)
    else ((offset, none), { r with off := offset })
  else if whence = SeekCurrent then
    let o := wrap64 (offset + r.off)
    if o < 0 then ((0, some .negativePosition), r)
    else ((o, none), { r with off := o })
  else if whence = SeekEnd then
    let o := wrap64 (offset + (r.s.length : Int))
    if o < 0 then ((0, some .negativePosition), r)
    else ((o, none), { r with off := o })
  else ((0, some .invalidWhence), r)

/-- `WriteTo(w)`: io.WriterTo.  The sink is a function from the offered bytes
to `(accepted count, failure)`; `none` as the overall result models the
`panic("invalid Write count")` when the sink over-reports.  Go's `io.Writer`
contract makes the accepted count non-negative, hence `Nat`. -/
def WriteTo (r : Reader) (w : List Nat → Nat × Option Err) :
    Option ((Nat × Option Err) × Reader) :=
  let r := { r with lastRead := opInvalid }
  if (r.s.length : Int) ≤ r.off then some ((0, none), r)
  else
    let s := r.s.drop r.off.toNat
    let m := (w s).1
    let werr := (w s).2
    if s.length < m then none
    else
      some ((m, if s.length ≠ m ∧ werr = none then some Err.shortWrite else werr),
        { r with off := r.off + (m : Int) })

/-- `Reset(s)`: `*r = Reader[S]{s: s}`. -/
def Reset (_r : Reader) (s : List Nat) : Reader :=
  { s := s, off := 0, lastRead := 0 }

end Reader

/-- `New(s)`: a new Reader reading from `s`. -/
def New (s : List Nat) : Reader := { s := s, off := 0, lastRead := 0 }

/-- The zero value of `Reader[S]`: every field at its zero value (`nil` slice
or `""` string, which hold no bytes, hence the empty list). -/
def zeroReader : Reader := { s := [], off := 0, lastRead := 0 }

/-- The ten-byte test buffer `"0123456789"`. -/
def buf10 : List Nat := [48, 49, 50, 51, 52, 53, 54, 55, 56, 57]

/-- The candidate absolute position `Seek` computes before its negativity
check: `offset` for `SeekStart`, `offset + off` for `SeekCurrent`,
`offset + len(s)` for `SeekEnd`, the additions being Go `int64` additions
(hence `wrap64`). -/
def seekCandidate (r : Reader) (offset whence : Int) : Int :=
  if whence = SeekStart then offset
  else if whence = SeekCurrent then wrap64 (offset + r.off)
  else wrap64 (offset + (r.s.length : Int))

/-- The state invariant of the cursor: the position is never negative, and
whenever `lastRead` records a decoded rune of width `w ∈ {1,2,3,4}`, the
position is at least `w` (so `UnreadRune` cannot drive it negative). -/
def Inv (r : Reader) : Prop :=
  0 ≤ r.off ∧ (1 ≤ r.lastRead → r.lastRead ≤ r.off)

/-- One call of the public mutating/observing API, relating a cursor state to
the state after the call.  `writeTo` steps only through non-panicking runs of
`WriteTo`. -/
inductive Step : Reader → Reader → Prop where
  | read (r : Reader) (pLen : Nat) : Step r (Reader.Read r pLen).2
  | readAt (r : Reader) (pLen : Nat) (off : Int) :
      Step r (Reader.ReadAt r pLen off).2
  | readByte (r : Reader) : Step r (Reader.ReadByte r).2
  | unreadByte (r : Reader) : Step r (Reader.UnreadByte r).2
  | readRune (r : Reader) : Step r (Reader.ReadRune r).2
  | unreadRune (r : Reader) : Step r (Reader.UnreadRune r).2
  | seek (r : Reader) (offset whence : Int) :
      Step r (Reader.Seek r offset whence).2
  | writeTo (r : Reader) (w : List Nat → Nat × Option Err)
      (res : (Nat × Option Err) × Reader) (h : Reader.WriteTo r w = some res) :
      Step r res.2
  | reset (r : Reader) (s : List Nat) : Step r (Reader.Reset r s)

open Reader

/-- On non-empty input, `utf8.DecodeRune` consumes between 1 and 4 bytes:
every branch of the decoder other than the empty-input one returns a size in
`{1, 2, 3, 4}`. -/
theorem decodeRune_size_bounds (p : List Nat) (h : p ≠ []) :
    1 ≤ (decodeRune p).2 ∧ (decodeRune p).2 ≤ 4 := by
  rcases p with _ | ⟨p0, _ | ⟨b1, _ | ⟨b2, _ | ⟨b3, rest⟩⟩⟩⟩ <;>
    first
      | exact absurd rfl h
      | (simp only [decodeRune]; split_ifs <;> simp)

/-- C4. `ReadAt` leaves the cursor (its `position`, `last_operation`, and
backing data) unchanged on every path, and its result depends only on the
backing data, the destination length, and the offset: two cursors with the
same backing data but arbitrary positions and last-operation marks get the
same result. -/
theorem readAt_frame (r₁ r₂ : Reader) (pLen : Nat) (off : Int)
    (hs : r₁.s = r₂.s) :
    (ReadAt r₁ pLen off).2 = r₁ ∧
    (ReadAt r₁ pLen off).1 = (ReadAt r₂ pLen off).1 := by
  constructor
  · unfold ReadAt; split_ifs <;> rfl
  · unfold ReadAt; rw [hs]; split_ifs <;> rfl

/-- C4 witness: a cursor mid-buffer with a pending rune unread and a fresh
cursor over the same bytes agree on `ReadAt`, and the call mutates nothing. -/
theorem readAt_frame_witness :
    (ReadAt { s := buf10, off := 7, lastRead := 3 } 4 2).2 =
      { s := buf10, off := 7, lastRead := 3 } ∧
    (ReadAt { s := buf10, off := 7, lastRead := 3 } 4 2).1 =
      (ReadAt (New buf10) 4 2).1 :=
  readAt_frame { s := buf10, off := 7, lastRead := 3 } (New buf10) 4 2 rfl

/-- C5. `ReadAt` fails with `negative offset` when `off < 0`; returns
`(0, EOF)` when `off ≥ len(data)`; otherwise copies exactly
`min(len(buffer), len(data) - off)` bytes starting at `off`, and reports
`EOF` (with the positive count) exactly when fewer bytes were copied than the
destination requested. -/
theorem readAt_spec (r : Reader) (pLen : Nat) (off : Int) :
    (off < 0 → ReadAt r pLen off = (([], some Err.negativeOffset), r)) ∧
    (0 ≤ off → (r.s.length : Int) ≤ off →
      ReadAt r pLen off = (([], some Err.eof), r)) ∧
    (0 ≤ off → off < (r.s.length : Int) →
      (ReadAt r pLen off).1.1 = (r.s.drop off.toNat).take pLen ∧
      (ReadAt r pLen off).1.1.length = min pLen (r.s.length - off.toNat) ∧
      (ReadAt r pLen off).1.2 =
        if (ReadAt r pLen off).1.1.length < pLen then some Err.eof else none) := by
  refine ⟨fun h => ?_, fun h0 h => ?_, fun h0 h => ?_⟩
  · unfold ReadAt; rw [if_pos h]
  · unfold ReadAt; rw [if_neg (by omega), if_pos h]
  · unfold ReadAt
    rw [if_neg (by omega), if_neg (by omega)]
    refine ⟨rfl, ?_, rfl⟩
    simp [List.length_take, List.length_drop]

/-- C5 witness: on `"0123456789"` at `offset = 1`, a 9-byte destination gets
`"123456789"` with no error and a 10-byte destination gets the same 9 bytes
together with `EOF`. -/
theorem readAt_spec_witness :
    (ReadAt (New buf10) 9 1).1.1 = (buf10.drop 1).take 9 ∧
    (ReadAt (New buf10) 9 1).1.2 =
      (if (ReadAt (New buf10) 9 1).1.1.length < 9 then some Err.eof else none) ∧
    (ReadAt (New buf10) 10 1).1.1.length = min 10 (buf10.length - 1) ∧
    (ReadAt (New buf10) 10 1).1.2 =
      (if (ReadAt (New buf10) 10 1).1.1.length < 10 then some Err.eof else none) := by
  have h9 := (readAt_spec (New buf10) 9 1).2.2 (by decide) (by decide)
  have h10 := (readAt_spec (New buf10) 10 1).2.2 (by decide) (by decide)
  exact ⟨h9.1, h9.2.2, h10.2.1, h10.2.2⟩

/-- C7. `UnreadByte` fails with `at beginning` exactly when `position ≤ 0`,
for every value of `lastRead` (the guard never inspects it); on success it
decrements `position` by 1 and resets `lastRead` to `opInvalid`. -/
theorem unreadByte_spec (r : Reader) :
    (r.off ≤ 0 → UnreadByte r = (some Err.atBeginning, r)) ∧
    (0 < r.off →
      UnreadByte r = (none, { r with off := r.off - 1, lastRead := opInvalid })) := by
  refine ⟨fun h => ?_, fun h => ?_⟩
  · unfold UnreadByte; rw [if_pos h]
  · unfold UnreadByte; rw [if_neg (by omega)]

/-- C7 witness: immediately after `Seek(2, SeekStart)` — not a byte read, the
last-operation mark is `opInvalid` — `UnreadByte` still succeeds and moves
`position` from 2 to 1. -/
theorem unreadByte_spec_witness :
    UnreadByte (Seek (New buf10) 2 SeekStart).2 =
      (none, { (Seek (New buf10) 2 SeekStart).2 with
                off := (Seek (New buf10) 2 SeekStart).2.off - 1,
                lastRead := opInvalid }) :=
  (unreadByte_spec (Seek (New buf10) 2 SeekStart).2).2 (by decide)

/-- C8. `Reset(s₂)` yields exactly the freshly constructed cursor over `s₂`
(backing data `s₂`, `position = 0`, `lastRead = opInvalid`), whatever the
prior state was — including a pending rune unread; consequently `UnreadRune`
right after a reset fails with `previous operation was not ReadRune`, and a
`Read` after the reset returns the content of the new buffer from the start. -/
theorem reset_spec (r : Reader) (s₂ : List Nat) (pLen : Nat) :
    Reset r s₂ = New s₂ ∧
    (Reset r s₂).s = s₂ ∧ (Reset r s₂).off = 0 ∧
    (Reset r s₂).lastRead = opInvalid ∧
    (UnreadRune (Reset r s₂)).1 = some Err.prevNotReadRune ∧
    (Read (Reset r s₂) pLen).1.1 = s₂.take pLen := by
  refine ⟨rfl, rfl, rfl, rfl, by norm_num [Reset, UnreadRune], ?_⟩
  unfold Reset Read
  split_ifs with h
  · rcases s₂ with _ | ⟨b, t⟩
    · simp
    · exfalso; simp at h; omega
  · simp

/-- C9. The zero-initialized cursor behaves identically to a cursor
explicitly constructed over an empty buffer: every operation of the public
surface returns the same results from both starting states, for all
arguments. -/
theorem zero_value_spec (pLen : Nat) (off offset whence : Int)
    (w : List Nat → Nat × Option Err) (s₂ : List Nat) :
    Len zeroReader = Len (New []) ∧
    Size zeroReader = Size (New []) ∧
    Read zeroReader pLen = Read (New []) pLen ∧
    ReadAt zeroReader pLen off = ReadAt (New []) pLen off ∧
    ReadByte zeroReader = ReadByte (New []) ∧
    UnreadByte zeroReader = UnreadByte (New []) ∧
    ReadRune zeroReader = ReadRune (New []) ∧
    UnreadRune zeroReader = UnreadRune (New []) ∧
    Seek zeroReader offset whence = Seek (New []) offset whence ∧
    WriteTo zeroReader w = WriteTo (New []) w ∧
    Reset zeroReader s₂ = Reset (New []) s₂ :=
  ⟨rfl, rfl, rfl, rfl, rfl, rfl, rfl, rfl, rfl, rfl, rfl⟩

/-- C1 counterexample: on the one-byte buffer `"a"`, `ReadRune` leaves the
cursor at end of data with `lastRead = 1`; the next `Read` returns
`(0, EOF)` but — returning before any assignment — leaves `lastRead = 1`
untouched, and the `UnreadRune` that follows succeeds.  This contradicts the
claim that `Read` resets `last_operation` at entry so that after a `Read`
returning `(0, end-of-data)` a subsequent `unread_rune` must fail. -/
theorem read_eof_lastRead_cex :
    (Read (ReadRune (New [97])).2 5).1 = ([], some Err.eof) ∧
    (Read (ReadRune (New [97])).2 5).2.lastRead = 1 ∧
    (UnreadRune (Read (ReadRune (New [97])).2 5).2).1 = none := by
  decide

/-- C1 (amended).  When `position < len(data)`, `Read` resets `lastRead` to
`opInvalid` and then sets it to `opRead` exactly when the returned count is
positive, and reports no error.  When `position ≥ len(data)` it returns
`(0, EOF)` before touching any state, so `lastRead` keeps its previous value
(and a rune read immediately preceding such a `Read` can still be unread). -/
theorem read_lastRead_spec (r : Reader) (pLen : Nat) :
    ((r.s.length : Int) ≤ r.off → Read r pLen = (([], some Err.eof), r)) ∧
    (r.off < (r.s.length : Int) →
      (Read r pLen).1.2 = none ∧
      (Read r pLen).2.lastRead =
        if 0 < (Read r pLen).1.1.length then opRead else opInvalid) := by
  refine ⟨fun h => ?_, fun h => ?_⟩
  · unfold Read; rw [if_pos h]
  · unfold Read; rw [if_neg (by omega)]
    exact ⟨rfl, rfl⟩

/-- C1 witness: a one-byte `Read` on a fresh ten-byte cursor reports no error
and leaves `lastRead = opRead` since its count is positive. -/
theorem read_lastRead_spec_witness :
    (Read (New buf10) 1).1.2 = none ∧
    (Read (New buf10) 1).2.lastRead =
      (if 0 < (Read (New buf10) 1).1.1.length then opRead else opInvalid) :=
  (read_lastRead_spec (New buf10) 1).2 (by decide)

/-- C2 counterexample: the state with `position = 2^63 - 1` is reachable by a
single `Seek(2^63 - 1, SeekStart)` from a fresh cursor; a `Seek(1,
SeekCurrent)` from it then has the mathematically non-negative candidate
`(2^63 - 1) + 1 = 2^63`, yet the Go `int64` addition wraps to `-2^63`, so the
call fails with `negative position` — contradicting the claim that the
candidate is computed exactly, never wrapped, and that the call fails iff the
candidate is negative. -/
theorem seek_wrap_cex :
    (Seek (New []) (2 ^ 63 - 1) SeekStart).2 =
      { s := [], off := 2 ^ 63 - 1, lastRead := 0 } ∧
    ((0 : Int) ≤ 2 ^ 63 - 1 + 1) ∧
    (Seek { s := [], off := 2 ^ 63 - 1, lastRead := 0 } 1 SeekCurrent).1 =
      (0, some Err.negativePosition) ∧
    (Seek { s := [], off := 2 ^ 63 - 1, lastRead := 0 } 1 SeekCurrent).2.off =
      2 ^ 63 - 1 := by
  refine ⟨?_, by norm_num, ?_, ?_⟩ <;>
    norm_num [Seek, SeekStart, SeekCurrent, wrap64, New, opInvalid]

/-- C2 (amended).  For anchors `Start`, `Current`, `End`, `Seek` computes the
candidate `offset` / `position + offset` / `len(data) + offset`, the
additions performed in wrapping 64-bit signed arithmetic (`seekCandidate`);
the candidate is never clamped.  It fails with `negative position` exactly
when the (wrapped) candidate is negative, leaving `position` unchanged;
otherwise it commits the candidate — unbounded above — as the new position
and returns it, and a subsequent `Read` at a committed position `≥ len(data)`
returns `(0, EOF)`. -/
theorem seek_spec (r : Reader) (offset whence : Int) (pLen : Nat)
    (hw : whence = SeekStart ∨ whence = SeekCurrent ∨ whence = SeekEnd) :
    (seekCandidate r offset whence < 0 →
      Seek r offset whence =
        ((0, some Err.negativePosition), { r with lastRead := opInvalid })) ∧
    (0 ≤ seekCandidate r offset whence →
      Seek r offset whence =
        ((seekCandidate r offset whence, none),
          { r with off := seekCandidate r offset whence,
                   lastRead := opInvalid }) ∧
      ((r.s.length : Int) ≤ seekCandidate r offset whence →
        (Read (Seek r offset whence).2 pLen).1 = ([], some Err.eof))) := by
  have hRead : ∀ r' : Reader, (r'.s.length : Int) ≤ r'.off →
      (Read r' pLen).1 = ([], some Err.eof) := by
    intro r' h'
    unfold Read; rw [if_pos h']
  rcases hw with h | h | h
  · subst h
    have hc : seekCandidate r offset SeekStart = offset := if_pos rfl
    refine ⟨fun hneg => ?_, fun hpos => ⟨?_, fun hl => ?_⟩⟩
    · rw [hc] at hneg
      unfold Seek; dsimp only
      rw [if_pos rfl, if_pos hneg]
    · rw [hc] at hpos ⊢
      unfold Seek; dsimp only
      rw [if_pos rfl, if_neg (not_lt.mpr hpos)]
    · rw [hc] at hpos hl
      unfold Seek; dsimp only
      rw [if_pos rfl, if_neg (not_lt.mpr hpos)]
      exact hRead _ hl
  · subst h
    have hne : ¬SeekCurrent = SeekStart := by decide
    have hc : seekCandidate r offset SeekCurrent = wrap64 (offset + r.off) := by
      unfold seekCandidate
      rw [if_neg hne, if_pos rfl]
    refine ⟨fun hneg => ?_, fun hpos => ⟨?_, fun hl => ?_⟩⟩
    · rw [hc] at hneg
      unfold Seek; dsimp only
      rw [if_neg hne, if_pos rfl, if_pos hneg]
    · rw [hc] at hpos ⊢
      unfold Seek; dsimp only
      rw [if_neg hne, if_pos rfl, if_neg (not_lt.mpr hpos)]
    · rw [hc] at hpos hl
      unfold Seek; dsimp only
      rw [if_neg hne, if_pos rfl, if_neg (not_lt.mpr hpos)]
      exact hRead _ hl
  · subst h
    have hne : ¬SeekEnd = SeekStart := by decide
    have hne2 : ¬SeekEnd = SeekCurrent := by decide
    have hc : seekCandidate r offset SeekEnd =
        wrap64 (offset + (r.s.length : Int)) := by
      unfold seekCandidate
      rw [if_neg hne, if_neg hne2]
    refine ⟨fun hneg => ?_, fun hpos => ⟨?_, fun hl => ?_⟩⟩
    · rw [hc] at hneg
      unfold Seek; dsimp only
      rw [if_neg hne, if_neg hne2, if_pos rfl, if_pos hneg]
    · rw [hc] at hpos ⊢
      unfold Seek; dsimp only
      rw [if_neg hne, if_neg hne2, if_pos rfl, if_neg (not_lt.mpr hpos)]
    · rw [hc] at hpos hl
      unfold Seek; dsimp only
      rw [if_neg hne, if_neg hne2, if_pos rfl, if_neg (not_lt.mpr hpos)]
      exact hRead _ hl

/-- C2 witness: seeking to `Start, 2^33` on the ten-byte buffer succeeds and
commits position `2^33`, and the `Read` that follows returns `(0, EOF)`. -/
theorem seek_spec_witness :
    Seek (New buf10) (2 ^ 33) SeekStart =
      ((seekCandidate (New buf10) (2 ^ 33) SeekStart, none),
        { New buf10 with off := seekCandidate (New buf10) (2 ^ 33) SeekStart,
                         lastRead := opInvalid }) ∧
    (Read (Seek (New buf10) (2 ^ 33) SeekStart).2 5).1 =
      ([], some Err.eof) := by
  have h := (seek_spec (New buf10) (2 ^ 33) SeekStart 5 (Or.inl rfl)).2
    (by norm_num [seekCandidate, SeekStart])
  exact ⟨h.1, h.2 (by norm_num [seekCandidate, SeekStart, New, buf10])⟩

/-- C3.  Whenever `ReadRune` succeeds, returning width `w`, it advanced
`position` by exactly `w`, and the `UnreadRune` that immediately follows
succeeds, restores `position` to exactly its value before the `ReadRune`,
and resets `lastRead` to `opInvalid`; a second consecutive `UnreadRune`
fails with `previous operation was not ReadRune`. -/
theorem readRune_unreadRune_roundtrip (r : Reader)
    (h : (ReadRune r).1.2.2 = none) :
    (UnreadRune (ReadRune r).2).1 = none ∧
    (UnreadRune (ReadRune r).2).2.off = r.off ∧
    (ReadRune r).2.off = r.off + ((ReadRune r).1.2.1 : Int) ∧
    (UnreadRune (ReadRune r).2).2.lastRead = opInvalid ∧
    (UnreadRune (UnreadRune (ReadRune r).2).2).1 = some Err.prevNotReadRune := by
  by_cases hEOF : (r.s.length : Int) ≤ r.off
  · exfalso
    unfold ReadRune at h
    rw [if_pos hEOF] at h
    simp at h
  · clear h
    unfold ReadRune
    rw [if_neg hEOF]
    dsimp only
    by_cases hA : r.s.getD r.off.toNat 0 < 128
    · rw [if_pos hA]
      dsimp only
      unfold UnreadRune
      dsimp only
      rw [if_pos (⟨by norm_num, by norm_num⟩ : (1 : Int) ≤ 1 ∧ (1 : Int) ≤ 4)]
      dsimp only
      rw [if_neg (by norm_num [opInvalid])]
      refine ⟨rfl, by omega, rfl, rfl, rfl⟩
    · rw [if_neg hA]
      dsimp only
      have hidx : r.off.toNat < r.s.length := by
        by_contra hcon
        rw [List.getD_eq_default _ _ (le_of_not_lt hcon)] at hA
        exact hA (by norm_num)
      have hne : r.s.drop r.off.toNat ≠ [] := by
        have hlen : 0 < (r.s.drop r.off.toNat).length := by
          rw [List.length_drop]; omega
        exact List.length_pos.mp hlen
      have hb := decodeRune_size_bounds (r.s.drop r.off.toNat) hne
      have hb1 : (1 : Int) ≤ ((decodeRune (r.s.drop r.off.toNat)).2 : Int) := by
        exact_mod_cast hb.1
      have hb4 : ((decodeRune (r.s.drop r.off.toNat)).2 : Int) ≤ (4 : Int) := by
        exact_mod_cast hb.2
      unfold UnreadRune
      dsimp only
      rw [if_pos ⟨hb1, hb4⟩]
      dsimp only
      rw [if_neg (by norm_num [opInvalid])]
      refine ⟨rfl, by omega, rfl, rfl, rfl⟩

/-- C3 witness: reading the three-byte rune U+4E2D from a fresh cursor over
its UTF-8 bytes, then unreading it, restores position 0; the second unread
fails. -/
theorem readRune_unreadRune_roundtrip_witness :
    (UnreadRune (ReadRune (New [228, 184, 173])).2).1 = none ∧
    (UnreadRune (ReadRune (New [228, 184, 173])).2).2.off =
      (New [228, 184, 173]).off ∧
    (ReadRune (New [228, 184, 173])).2.off =
      (New [228, 184, 173]).off +
        ((ReadRune (New [228, 184, 173])).1.2.1 : Int) ∧
    (UnreadRune (ReadRune (New [228, 184, 173])).2).2.lastRead = opInvalid ∧
    (UnreadRune (UnreadRune (ReadRune (New [228, 184, 173])).2).2).1 =
      some Err.prevNotReadRune :=
  readRune_unreadRune_roundtrip (New [228, 184, 173]) (by decide)

/-- C6.  `WriteTo` on an exhausted cursor returns `(0, no error)` — not EOF.
Otherwise the sink is offered exactly the remaining slice `s[off:]` in one
call; if it over-reports acceptance the run is fatal (`none`, the model of
the `panic`); if it accepts `m ≤ offered` bytes, the position advances by
exactly `m`, a sink failure is propagated unchanged, and a silent partial
acceptance is reported as `short write`. -/
theorem writeTo_spec (r : Reader) (w : List Nat → Nat × Option Err)
    (m : Nat) (werr : Option Err)
    (hw : w (r.s.drop r.off.toNat) = (m, werr)) :
    ((r.s.length : Int) ≤ r.off →
      WriteTo r w = some ((0, none), { r with lastRead := opInvalid })) ∧
    (r.off < (r.s.length : Int) →
      ((r.s.drop r.off.toNat).length < m → WriteTo r w = none) ∧
      (m ≤ (r.s.drop r.off.toNat).length →
        ∃ res, WriteTo r w = some res ∧
          res.1.1 = m ∧
          res.2.off = r.off + (m : Int) ∧
          res.2.lastRead = opInvalid ∧ res.2.s = r.s ∧
          (werr ≠ none → res.1.2 = werr) ∧
          (werr = none →
            res.1.2 = if m < (r.s.drop r.off.toNat).length
                      then some Err.shortWrite else none))) := by
  refine ⟨fun h => ?_, fun h => ⟨fun hover => ?_, fun hle => ?_⟩⟩
  · unfold WriteTo; dsimp only
    rw [if_pos h]
  · unfold WriteTo; dsimp only
    rw [if_neg (not_le.mpr h), hw]; dsimp only
    rw [if_pos hover]
  · unfold WriteTo; dsimp only
    rw [if_neg (not_le.mpr h), hw]; dsimp only
    rw [if_neg (not_lt.mpr hle)]
    refine ⟨_, rfl, rfl, rfl, rfl, rfl, fun hne => ?_, fun heq => ?_⟩
    · rcases werr with _ | e
      · exact absurd rfl hne
      · simp
    · subst heq
      by_cases hlt : m < (r.s.drop r.off.toNat).length
      · have hcond : (r.s.drop r.off.toNat).length ≠ m ∧
            (none : Option Err) = none := ⟨by omega, rfl⟩
        rw [if_pos hcond, if_pos hlt]
      · have hEq : (r.s.drop r.off.toNat).length = m := by omega
        have hcond : ¬((r.s.drop r.off.toNat).length ≠ m ∧
            (none : Option Err) = none) := fun hc => hc.1 hEq
        rw [if_neg hcond, if_neg hlt]

/-- C6 witness: a sink that accepts all but one of the ten offered bytes and
reports no failure of its own produces a `short write` with count 9 and
position 9. -/
theorem writeTo_spec_witness :
    ∃ res, WriteTo (New buf10) (fun s => (s.length - 1, none)) = some res ∧
      res.1.1 = 9 ∧
      res.2.off = (New buf10).off + (9 : Int) ∧
      res.2.lastRead = opInvalid ∧ res.2.s = (New buf10).s ∧
      ((none : Option Err) ≠ none → res.1.2 = none) ∧
      ((none : Option Err) = none →
        res.1.2 = if 9 < ((New buf10).s.drop (New buf10).off.toNat).length
                  then some Err.shortWrite else none) :=
  ((writeTo_spec (New buf10) (fun s => (s.length - 1, none)) 9 none
    (by decide)).2 (by decide)).2 (by decide)

/-- The invariant `Inv` is preserved by every single API call. -/
theorem inv_step {r r' : Reader} (hr : Inv r) (hs : Step r r') : Inv r' := by
  obtain ⟨h0, h1⟩ := hr
  cases hs with
  | read pLen =>
    unfold Reader.Read
    split_ifs with h
    · exact ⟨h0, h1⟩
    · refine ⟨?_, ?_⟩ <;> dsimp only
      · omega
      · split_ifs <;> norm_num [opRead, opInvalid]
  | readAt pLen off =>
    unfold Reader.ReadAt
    split_ifs <;> exact ⟨h0, h1⟩
  | readByte =>
    unfold Reader.ReadByte
    dsimp only
    split_ifs with h
    · exact ⟨h0, by norm_num [opInvalid]⟩
    · refine ⟨?_, ?_⟩ <;> dsimp only
      · omega
      · norm_num [opRead]
  | unreadByte =>
    unfold Reader.UnreadByte
    split_ifs with h
    · exact ⟨h0, h1⟩
    · refine ⟨?_, ?_⟩ <;> dsimp only
      · omega
      · norm_num [opInvalid]
  | readRune =>
    unfold Reader.ReadRune
    split_ifs with h
    · exact ⟨h0, by norm_num [opInvalid]⟩
    · dsimp only
      split_ifs with h2 <;> refine ⟨?_, ?_⟩ <;> dsimp only
      · omega
      · intro hx; omega
      · omega
      · intro hx; omega
  | unreadRune =>
    unfold Reader.UnreadRune
    split_ifs with h
    · refine ⟨?_, ?_⟩ <;> dsimp only
      · omega
      · norm_num [opInvalid]
    · exact ⟨h0, h1⟩
  | seek offset whence =>
    unfold Reader.Seek
    dsimp only
    split_ifs <;>
      refine ⟨?_, ?_⟩ <;>
      dsimp only <;>
      first
        | omega
        | norm_num [opInvalid]
  | writeTo w res h =>
    unfold Reader.WriteTo at h
    dsimp only at h
    by_cases h2 : (r.s.length : Int) ≤ r.off
    · rw [if_pos h2] at h
      injection h with h
      subst h
      exact ⟨h0, by norm_num [opInvalid]⟩
    · rw [if_neg h2] at h
      by_cases h3 : (r.s.drop r.off.toNat).length < (w (r.s.drop r.off.toNat)).1
      · rw [if_pos h3] at h
        simp at h
      · rw [if_neg h3] at h
        injection h with h
        subst h
        refine ⟨?_, ?_⟩ <;> dsimp only
        · omega
        · norm_num [opInvalid]
  | reset s =>
    exact ⟨le_refl 0, by norm_num [Reader.Reset]⟩

/-- C10.  Position non-negativity is an invariant: starting from a freshly
constructed, zero-initialized, or reset cursor, every sequence of API calls
keeps `position ≥ 0`, and whenever `lastRead` records a decoded rune of
width `w ∈ {1..4}`, `position ≥ w` holds — so the decrements of `UnreadRune`
(by `w`) and `UnreadByte` (by 1, under its `position > 0` guard) never drive
the position negative. -/
theorem position_invariant (s : List Nat) (r₀ r : Reader)
    (h₀ : r₀ = New s ∨ r₀ = zeroReader ∨ ∃ rp, r₀ = Reader.Reset rp s)
    (h : Relation.ReflTransGen Step r₀ r) :
    0 ≤ r.off ∧ (1 ≤ r.lastRead → r.lastRead ≤ r.off) := by
  have hinv : Inv r₀ := by
    rcases h₀ with h₀ | h₀ | ⟨rp, h₀⟩ <;> subst h₀ <;>
      exact ⟨le_refl 0, by norm_num [New, zeroReader, Reader.Reset]⟩
  have : Inv r := by
    induction h with
    | refl => exact hinv
    | tail _ hstep ih => exact inv_step ih hstep
  exact this

/-- C10 witness: one `ReadRune` step from a fresh one-byte cursor reaches a
state satisfying the invariant. -/
theorem position_invariant_witness :
    0 ≤ (ReadRune (New [97])).2.off ∧
    (1 ≤ (ReadRune (New [97])).2.lastRead →
      (ReadRune (New [97])).2.lastRead ≤ (ReadRune (New [97])).2.off) :=
  position_invariant [97] (New [97]) (ReadRune (New [97])).2 (Or.inl rfl)
    (Relation.ReflTransGen.single (Step.readRune (New [97])))

end ReaderSpec
